import Mathlib

/-!
Verification development for the `ipy_compare` annotation panel
(`src/ipy_compare/panel.py`, class `Compare`).

The `Compare` class keeps, besides UI widgets, the following state:
  * `self.pagination : list` of row identifiers (DataFrame index entries),
  * `self.pagination_iter`, a Python iterator over `self.pagination`,
  * `self.current_index`, the current row identifier or `None`,
  * `self.measurements`, a list of dicts with keys
    `row_index, column, value, measure, type`.

Row identifiers are modelled as `Nat` (pandas integer index entries),
cell values and measures as `String`.  The Python `None` sentinel is
modelled with `Option`.  The measurement-type strings `"overall"` and
`"column"` are modelled by the inductive `MKind`.
-/

/-- The `type` field of a measurement dict: the Python code writes exactly
the strings `"overall"` (panel.py line 263) or `"column"` (line 270). -/
inductive MKind where
  | overall : MKind
  | column : MKind
deriving DecidableEq, Repr

/-- The string the Python code stores in the `type` field. -/
def MKind.toStr : MKind → String
  | .overall => "overall"
  | .column => "column"

/-- One element of `self.measurements`: a dict
`{"row_index": ..., "column": ..., "value": ..., "measure": ..., "type": ...}`
as built in `_update_or_add_measure` (panel.py lines 278-284).
`column = none` and `value = none` model Python `None` (the overall slot). -/
structure Measurement where
  row_index : Nat
  column : Option String
  value : Option String
  measure : String
  type : MKind
deriving DecidableEq, Repr

/-- The identity triple of a measurement: the fields compared by the
update-in-place scan of `_update_or_add_measure` (panel.py line 275). -/
def keyOf (mm : Measurement) : Nat × Option String × MKind :=
  (mm.row_index, mm.column, mm.type)

/-- `_update_or_add_measure` (panel.py lines 272-284): scan
`self.measurements` for the first dict agreeing on
(`row_index`, `column`, `type`); if found, overwrite its `measure`
field in place and stop; otherwise append a fresh dict at the end. -/
def update_or_add_measure (ms : List Measurement) (row : Nat)
    (col : Option String) (v : Option String) (m : String) (k : MKind) :
    List Measurement :=
  match ms with
  | [] => [⟨row, col, v, m, k⟩]
  | mm :: rest =>
    if mm.row_index = row ∧ mm.column = col ∧ mm.type = k then
      { mm with measure := m } :: rest
    else
      mm :: update_or_add_measure rest row col v m k

/-- Which `type` string `_save_or_update_measures` passes for a slot:
`"overall"` for the overall slot (`column = None`, line 263), `"column"`
for a column slot (line 270). -/
def slotKind : Option String → MKind
  | none => .overall
  | some _ => .column

/-- Recording a non-`None` selection for one slot, as
`_save_or_update_measures` does (panel.py lines 257-270): the overall
slot calls `_update_or_add_measure(row, None, None, sel, "overall")`,
a column slot `c` calls
`_update_or_add_measure(row, c, value, sel, "column")`. -/
def recordAt (ms : List Measurement) (row : Nat) (slot : Option String)
    (v : Option String) (m : String) : List Measurement :=
  match slot with
  | none => update_or_add_measure ms row none none m .overall
  | some c => update_or_add_measure ms row (some c) v m .column

/-- The per-slot guard of `_save_or_update_measures`: a slot whose radio
value is `None` is skipped (`if selected ... is not None`, panel.py
lines 262 and 268); a non-`None` value is written via
`_update_or_add_measure`. -/
def guardedRecord (ms : List Measurement) (row : Nat) (slot : Option String)
    (v : Option String) (sel : Option String) : List Measurement :=
  match sel with
  | none => ms
  | some m => recordAt ms row slot v m

/-- `_save_or_update_measures` (panel.py lines 257-270).
`radioOverall = none` models `"overall" not in self.radio_buttons`;
`radioCol c = none` models `c not in self.radio_buttons`; an inner
`none` models a radio group whose value is `None` (unset).
`df row c` is the cell `self.df.iloc[row][c]`. -/
def save_or_update_measures (df : Nat → String → String)
    (columns : List String) (radioOverall : Option (Option String))
    (radioCol : String → Option (Option String))
    (ms : List Measurement) (row : Nat) : List Measurement :=
  let ms1 :=
    match radioOverall with
    | none => ms
    | some sel => guardedRecord ms row none none sel
  columns.foldl
    (fun acc c =>
      match radioCol c with
      | none => acc
      | some sel => guardedRecord acc row (some c) (some (df row c)) sel)
    ms1

/-- `_get_saved_measure` (panel.py lines 228-233): return the `measure`
of the first stored dict whose `row_index` equals `self.current_index`
and whose `column` equals the argument, else `None`.  (The scan does not
compare the `type` field.) -/
def get_saved_measure (ms : List Measurement) (current : Option Nat)
    (column : Option String) : Option String :=
  match ms with
  | [] => none
  | mm :: rest =>
    if current = some mm.row_index ∧ mm.column = column then
      some mm.measure
    else
      get_saved_measure rest current column

/-- A recording event: one slot written with a non-unset measure
(one guarded `_update_or_add_measure` call that fired). -/
structure RecCall where
  row : Nat
  slot : Option String
  value : Option String
  measure : String
deriving DecidableEq, Repr

/-- The identity triple a recording event writes to. -/
def callKey (c : RecCall) : Nat × Option String × MKind :=
  (c.row, c.slot, slotKind c.slot)

/-- Folding a sequence of recording events over a starting log. -/
def applyFrom (ms : List Measurement) (calls : List RecCall) : List Measurement :=
  calls.foldl (fun acc c => recordAt acc c.row c.slot c.value c.measure) ms

/-- The measurement log reached from the empty log (`self.measurements = []`
at construction, panel.py line 44) by a sequence of recording events. -/
def applyTrace (calls : List RecCall) : List Measurement :=
  applyFrom [] calls

/-- The identity triple a recording for `slot` writes:
`(row, None, "overall")` for the overall slot, `(row, c, "column")`
for column slot `c`. -/
def keyFor (row : Nat) (slot : Option String) : Nat × Option String × MKind :=
  (row, slot, slotKind slot)

/-- The stored `measure` values of all log entries with a given identity
triple, in log order. -/
def measuresOfKey (ms : List Measurement)
    (key : Nat × Option String × MKind) : List String :=
  (ms.filter (fun mm => decide (keyOf mm = key))).map Measurement.measure

/-- Every reachable log keeps `type` consistent with `column`:
overall entries have `column = None`, column entries a column name. -/
def wellKinded (ms : List Measurement) : Prop :=
  ∀ mm ∈ ms, mm.type = slotKind mm.column

/-- The first position in the log that matches a
(`row_index`, `column`, `type`) triple — the index at which the scan of
`_update_or_add_measure` stops. -/
def firstKeyIdx (ms : List Measurement) (row : Nat) (col : Option String)
    (k : MKind) : Option Nat :=
  match ms with
  | [] => none
  | mm :: rest =>
    if mm.row_index = row ∧ mm.column = col ∧ mm.type = k then some 0
    else (firstKeyIdx rest row col k).map (· + 1)

/-- The navigation state of a `Compare` session:
`pagination = self.pagination`, `rest` = the elements
`self.pagination_iter` has not yet yielded, `current = self.current_index`
(`none` models Python `None`, the exhausted sentinel). -/
structure NavState where
  pagination : List Nat
  rest : List Nat
  current : Option Nat
deriving DecidableEq, Repr

/-- Construction (panel.py lines 47-53): `self.pagination_iter =
iter(self.pagination)` has yielded nothing yet, and `self.current_index =
self.pagination[0] if self.pagination else None`. -/
def initNav (pagination : List Nat) : NavState :=
  { pagination := pagination, rest := pagination, current := pagination.head? }

/-- The cursor step of `_submit_and_next` (panel.py lines 250-254):
`self.current_index = next(self.pagination_iter)`, and on `StopIteration`
`self.current_index = None` (an exhausted Python iterator keeps raising
`StopIteration`, so `rest` stays empty). -/
def advance (s : NavState) : NavState :=
  match s.rest with
  | [] => { s with current := none }
  | x :: xs => { s with current := some x, rest := xs }

/-- `n` successive `advance` steps. -/
def advanceN : Nat → NavState → NavState
  | 0, s => s
  | n + 1, s => advanceN n (advance s)

/-- Python `list.index(x)`: the position of the first occurrence of `x`,
or `none` where Python raises `ValueError`. -/
def firstIdx (l : List Nat) (x : Nat) : Option Nat :=
  match l with
  | [] => none
  | y :: ys =>
    if y = x then some 0
    else (firstIdx ys x).map (· + 1)

/-- The Python exceptions the modelled operations can raise. -/
inductive PyError where
  | valueError : PyError
deriving DecidableEq, Repr

/-- `_previous_row` (panel.py lines 235-241):
`idx = self.pagination.index(self.current_index)` raises `ValueError`
when the current identifier does not occur in the pagination list — in
particular when `self.current_index` is `None`, since pagination entries
are row identifiers, never `None`.  When `idx > 0` the cursor moves to
`self.pagination[idx - 1]` and the iterator is rebuilt as
`iter(self.pagination[idx:])`; when `idx == 0` nothing changes. -/
def previous_row (s : NavState) : Except PyError NavState :=
  match s.current with
  | none => .error .valueError
  | some c =>
    match firstIdx s.pagination c with
    | none => .error .valueError
    | some idx =>
      if 0 < idx then
        .ok { s with current := s.pagination.get? (idx - 1),
                     rest := s.pagination.drop idx }
      else
        .ok s

/-- A cell of the exported table (`pd.DataFrame(self.measurements)`):
Python `None` becomes `Cell.null`. -/
inductive Cell where
  | null : Cell
  | nat (n : Nat) : Cell
  | str (s : String) : Cell
deriving DecidableEq, Repr

/-- A Python `Option`-valued string field as a cell. -/
def optCell : Option String → Cell
  | none => .null
  | some s => .str s

/-- One measurement dict as the ordered list of its key/value pairs, in
the key order `_update_or_add_measure` builds it (panel.py lines 278-284). -/
def measurementEntries (mm : Measurement) : List (String × Cell) :=
  [("row_index", .nat mm.row_index),
   ("column", optCell mm.column),
   ("value", optCell mm.value),
   ("measure", .str mm.measure),
   ("type", .str mm.type.toStr)]

/-- The column names of the exported table: the keys of every
measurement dict, in insertion order. -/
def measurementColumns : List String :=
  ["row_index", "column", "value", "measure", "type"]

/-- `get_measurements` (panel.py lines 286-288):
`pd.DataFrame(self.measurements)` — one row per stored dict, in log
order, columns taken from the dict keys. -/
def get_measurements (ms : List Measurement) : List (List (String × Cell)) :=
  ms.map measurementEntries

/-- The radio-button options offered for a vocabulary list:
`[None] + self.measures.get(...)` (panel.py lines 189 and 207). -/
def radioOptions (vocab : List String) : List (Option String) :=
  none :: vocab.map some

/-- Modelled from the spec: `Compare.sample_indices` (panel.py lines
290-293) delegates the draw to `pandas.DataFrame.sample(n=n,
random_state=seed)`, external library code that is not part of this
repository.  The documented contract — with a supplied `random_state`
the draw is a deterministic, seed-dependent selection of `n` distinct
positions without replacement, failing when `n` exceeds the population —
is modelled by a seed-determined permutation (a rotation) of the row
identifiers.  `seededPerm` is that permutation. -/
def seededPerm (seed : Nat) (ids : List Nat) : List Nat :=
  ids.rotate (seed % (ids.length + 1))

/-- The error pandas raises for an oversized sample request. -/
inductive SampleError where
  | invalidSampleSize : SampleError
deriving DecidableEq, Repr

/-- Modelled from the spec: `Compare.sample_indices(df, n, seed)` =
`df.sample(n=n, random_state=seed).index.tolist()` with a supplied seed;
`ids` is the DataFrame index.  Fails when `n` exceeds the number of
rows, else returns the first `n` entries of the seed-determined
permutation of the identifiers. -/
def sample_indices (ids : List Nat) (n : Nat) (seed : Nat) :
    Except SampleError (List Nat) :=
  if ids.length < n then .error .invalidSampleSize
  else .ok ((seededPerm seed ids).take n)

example :
    update_or_add_measure [] 0 (some "col1") (some "A") "Correct" .column =
      [⟨0, some "col1", some "A", "Correct", .column⟩] := by decide

example :
    update_or_add_measure
      [⟨0, some "col1", some "A", "Correct", .column⟩]
      0 (some "col1") (some "A") "Incorrect" .column =
      [⟨0, some "col1", some "A", "Incorrect", .column⟩] := by decide

example :
    get_saved_measure [⟨0, some "col1", some "A", "Correct", .column⟩]
      (some 0) (some "col1") = some "Correct" := by decide

lemma advance_of_rest_nil (s : NavState) (h : s.rest = []) :
    advance s = { s with current := none } := by
  rcases s with ⟨p, r, c⟩
  simp only at h
  subst h
  rfl

lemma advanceN_succ_right (n : Nat) (s : NavState) :
    advanceN (n + 1) s = advance (advanceN n s) := by
  induction n generalizing s with
  | zero => rfl
  | succ n ih =>
    show advanceN (n + 1) (advance s) = advance (advanceN (n + 1) s)
    rw [ih (advance s)]
    rfl

lemma advanceN_step (j : Nat) (s : NavState) (h : j < s.rest.length) :
    advanceN (j + 1) s =
      { s with current := s.rest.get? j, rest := s.rest.drop (j + 1) } := by
  induction j generalizing s with
  | zero =>
    rcases s with ⟨p, r, c⟩
    cases r with
    | nil => simp at h
    | cons x xs => rfl
  | succ j ih =>
    rcases s with ⟨p, r, c⟩
    cases r with
    | nil => simp at h
    | cons x xs =>
      show advanceN (j + 1) (advance ⟨p, x :: xs, c⟩) = _
      have hx : advance (⟨p, x :: xs, c⟩ : NavState) = ⟨p, xs, some x⟩ := rfl
      rw [hx, ih ⟨p, xs, some x⟩ (by simpa using Nat.lt_of_succ_lt_succ h)]
      rfl

/-- C1 (as stated) is false on the code: with pagination `[0, 1, 2]`
(so `k = 3`), the first `advance()` leaves the cursor at the first
element (the freshly built `pagination_iter` re-yields it), and after
exactly `k = 3` calls the cursor holds the last element, not the
exhausted sentinel. -/
theorem C1_advance_counterexample :
    (advance (initNav [0, 1, 2])).current = some 0 ∧
    (advanceN 3 (initNav [0, 1, 2])).current = some 2 ∧
    (advanceN 3 (initNav [0, 1, 2])).current ≠ none := by decide

/-- C1 amended: the freshly constructed forward iterator still holds the
whole pagination sequence, so the `(i+1)`-st `advance()` puts the cursor
on element `i` (in particular the first `advance()` re-delivers the
first element); `advance()` exactly `k + 1` times reaches the exhausted
sentinel, and one further `advance()` leaves the cursor exhausted. -/
theorem C1_advance_amended (p : List Nat) (hp : p ≠ []) :
    (∀ i, i < p.length → (advanceN (i + 1) (initNav p)).current = p.get? i) ∧
    (advanceN (p.length + 1) (initNav p)).current = none ∧
    (advanceN (p.length + 2) (initNav p)).current = none := by
  have hrest : (initNav p).rest = p := rfl
  have hlen : 0 < p.length := List.length_pos.mpr hp
  have hstep : advanceN p.length (initNav p) =
      { initNav p with current := p.get? (p.length - 1), rest := [] } := by
    have h1 : p.length - 1 + 1 = p.length := Nat.succ_pred_eq_of_pos hlen
    have h2 : p.length - 1 < (initNav p).rest.length := by
      rw [hrest]; omega
    have := advanceN_step (p.length - 1) (initNav p) h2
    rw [h1] at this
    rw [this, hrest]
    simp [List.drop_length]
  refine ⟨?_, ?_, ?_⟩
  · intro i hi
    rw [advanceN_step i (initNav p) (by rw [hrest]; exact hi)]
    rfl
  · rw [advanceN_succ_right, hstep,
      advance_of_rest_nil _ (by rfl)]
  · rw [advanceN_succ_right, advanceN_succ_right, hstep,
      advance_of_rest_nil _ (by rfl), advance_of_rest_nil _ (by rfl)]

/-- Witness for C1_advance_amended at pagination `[5, 7, 9]`. -/
theorem C1_advance_amended_witness :
    (advanceN 2 (initNav [5, 7, 9])).current = some 7 ∧
    (advanceN 4 (initNav [5, 7, 9])).current = none := by
  refine ⟨?_, ?_⟩
  · have h := (C1_advance_amended [5, 7, 9] (by decide)).1 1 (by decide)
    simpa using h
  · have h := (C1_advance_amended [5, 7, 9] (by decide)).2.1
    simpa using h

/-- C4 (as stated) is false on the code: exhaust a one-element session,
then click Previous — `self.pagination.index(None)` raises `ValueError`
instead of being a no-op. -/
theorem C4_retreat_exhausted_counterexample :
    (advanceN 2 (initNav [0])).current = none ∧
    previous_row (advanceN 2 (initNav [0])) = .error .valueError :=
  ⟨rfl, rfl⟩

/-- C4 amended: on an exhausted cursor, `retreat()` fails with
`ValueError` (the exhausted sentinel is never an element of the
pagination list), rather than being a no-op. -/
theorem C4_retreat_exhausted_raises (s : NavState) (h : s.current = none) :
    previous_row s = .error .valueError := by
  simp [previous_row, h]

/-- Witness for C4_retreat_exhausted_raises at a concrete exhausted state. -/
theorem C4_retreat_exhausted_raises_witness :
    previous_row ⟨[0], [], none⟩ = .error .valueError :=
  C4_retreat_exhausted_raises ⟨[0], [], none⟩ rfl

lemma firstIdx_of_first (l : List Nat) (x : Nat) (i : Nat)
    (h1 : l.get? i = some x) (h2 : ∀ j, j < i → l.get? j ≠ some x) :
    firstIdx l x = some i := by
  induction l generalizing i with
  | nil => simp at h1
  | cons y ys ih =>
    by_cases hy : y = x
    · subst hy
      cases i with
      | zero => simp [firstIdx]
      | succ i =>
        exact absurd (by simp : (y :: ys).get? 0 = some y)
          (h2 0 (Nat.succ_pos i))
    · cases i with
      | zero =>
        simp at h1
        exact absurd h1 hy
      | succ i =>
        have h1' : ys.get? i = some x := by simpa using h1
        have h2' : ∀ j, j < i → ys.get? j ≠ some x := by
          intro j hj
          have := h2 (j + 1) (Nat.succ_lt_succ hj)
          simpa using this
        simp [firstIdx, hy, ih i h1' h2']

/-- C10: when the current identifier occurs more than once in the
pagination sequence, `retreat()` locates the cursor by the FIRST
occurrence (Python `list.index`): with `i` that first occurrence, it is
a no-op when `i = 0`, and otherwise moves the cursor to element `i - 1`
and rebuilds the forward iterator as the suffix starting at `i`. -/
theorem C10_retreat_first_occurrence (s : NavState) (c i : Nat)
    (hc : s.current = some c)
    (_hdup : 2 ≤ s.pagination.count c)
    (hi : s.pagination.get? i = some c)
    (hfirst : ∀ j, j < i → s.pagination.get? j ≠ some c) :
    (i = 0 → previous_row s = .ok s) ∧
    (0 < i →
      previous_row s =
        .ok { s with current := s.pagination.get? (i - 1),
                     rest := s.pagination.drop i }) := by
  have hf := firstIdx_of_first s.pagination c i hi hfirst
  constructor
  · intro h0
    subst h0
    simp [previous_row, hc, hf]
  · intro hpos
    simp [previous_row, hc, hf, hpos, Nat.not_eq_zero_of_lt hpos]

/-- Witness for C10_retreat_first_occurrence: pagination `[5, 7, 5, 7]`
with current identifier `7`; its first occurrence is position 1, so
retreat moves the cursor to element 0 and the iterator to the suffix
from position 1. -/
theorem C10_retreat_first_occurrence_witness :
    previous_row ⟨[5, 7, 5, 7], [], some 7⟩ =
      .ok ⟨[5, 7, 5, 7], [7, 5, 7], some 5⟩ := by
  have h := (C10_retreat_first_occurrence ⟨[5, 7, 5, 7], [], some 7⟩ 7 1
    rfl (by decide) (by decide)
    (by
      intro j hj
      have hj0 : j = 0 := by omega
      subst hj0
      decide)).2 (by decide)
  simpa using h

lemma wellKinded_nil : wellKinded [] := by
  intro mm h
  exact absurd h (List.not_mem_nil mm)

lemma wellKinded_cons (mm : Measurement) (rest : List Measurement)
    (h : wellKinded (mm :: rest)) : wellKinded rest :=
  fun x hx => h x (List.mem_cons_of_mem _ hx)

lemma wellKinded_update (ms : List Measurement) (row : Nat)
    (col : Option String) (v : Option String) (m : String) (k : MKind)
    (hk : k = slotKind col) (h : wellKinded ms) :
    wellKinded (update_or_add_measure ms row col v m k) := by
  induction ms with
  | nil =>
    intro mm hmm
    have hmm' : mm = ⟨row, col, v, m, k⟩ := by
      simpa [update_or_add_measure] using hmm
    subst hmm'
    simpa using hk
  | cons hd rest ih =>
    intro mm hmm
    by_cases hmatch : hd.row_index = row ∧ hd.column = col ∧ hd.type = k
    · have hres : update_or_add_measure (hd :: rest) row col v m k =
          { hd with measure := m } :: rest := by
        simp [update_or_add_measure, hmatch]
      rw [hres] at hmm
      rcases List.mem_cons.mp hmm with hmm | hmm
      · subst hmm
        exact h hd (List.mem_cons_self _ _)
      · exact h mm (List.mem_cons_of_mem _ hmm)
    · have hres : update_or_add_measure (hd :: rest) row col v m k =
          hd :: update_or_add_measure rest row col v m k := by
        simp [update_or_add_measure, hmatch]
      rw [hres] at hmm
      rcases List.mem_cons.mp hmm with hmm | hmm
      · rw [hmm]
        exact h hd (List.mem_cons_self _ _)
      · exact ih (wellKinded_cons hd rest h) mm hmm

lemma wellKinded_recordAt (ms : List Measurement) (row : Nat)
    (slot : Option String) (v : Option String) (m : String)
    (h : wellKinded ms) : wellKinded (recordAt ms row slot v m) := by
  cases slot with
  | none => exact wellKinded_update ms row none none m .overall rfl h
  | some c => exact wellKinded_update ms row (some c) v m .column rfl h

lemma wellKinded_applyFrom (calls : List RecCall) :
    ∀ ms : List Measurement, wellKinded ms → wellKinded (applyFrom ms calls) := by
  induction calls with
  | nil => intro ms h; exact h
  | cons c cs ih =>
    intro ms h
    exact ih (recordAt ms c.row c.slot c.value c.measure)
      (wellKinded_recordAt ms c.row c.slot c.value c.measure h)

lemma wellKinded_applyTrace (calls : List RecCall) :
    wellKinded (applyTrace calls) :=
  wellKinded_applyFrom calls [] wellKinded_nil

lemma get_saved_update (ms : List Measurement) (row : Nat)
    (col : Option String) (v : Option String) (m : String) (k : MKind)
    (hk : k = slotKind col) (hwk : wellKinded ms) :
    get_saved_measure (update_or_add_measure ms row col v m k)
      (some row) col = some m := by
  induction ms with
  | nil => simp [update_or_add_measure, get_saved_measure]
  | cons hd rest ih =>
    by_cases hmatch : hd.row_index = row ∧ hd.column = col ∧ hd.type = k
    · have hres : update_or_add_measure (hd :: rest) row col v m k =
          { hd with measure := m } :: rest := by
        simp [update_or_add_measure, hmatch]
      rw [hres]
      have hcond : some row = some ({ hd with measure := m }).row_index ∧
          ({ hd with measure := m }).column = col := by
        exact ⟨by rw [hmatch.1], hmatch.2.1⟩
      simp only [get_saved_measure]
      rw [if_pos hcond]
    · have hhead : ¬(some row = some hd.row_index ∧ hd.column = col) := by
        rintro ⟨ha, hb⟩
        exact hmatch ⟨(Option.some.inj ha).symm, hb, by
          rw [hwk hd (List.mem_cons_self _ _), hb, hk]⟩
      have hres : update_or_add_measure (hd :: rest) row col v m k =
          hd :: update_or_add_measure rest row col v m k := by
        simp [update_or_add_measure, hmatch]
      rw [hres]
      simp only [get_saved_measure]
      rw [if_neg hhead]
      exact ih (wellKinded_cons hd rest hwk)

/-- C2: in every reachable session state, recording measure `m` for row
`row` and slot `slot` (the overall slot `none` or a column slot
`some c`) and then reading it back with `_get_saved_measure` (with the
cursor on that row) returns exactly `m` — for the overall slot just as
for column slots. -/
theorem C2_saved_measure_roundtrip (calls : List RecCall) (row : Nat)
    (slot : Option String) (v : Option String) (m : String) :
    get_saved_measure (recordAt (applyTrace calls) row slot v m)
      (some row) slot = some m := by
  have hwk := wellKinded_applyTrace calls
  cases slot with
  | none => exact get_saved_update _ row none none m .overall rfl hwk
  | some c => exact get_saved_update _ row (some c) v m .column rfl hwk

lemma keyOf_eq_iff (mm : Measurement) (row : Nat) (col : Option String)
    (k : MKind) :
    keyOf mm = (row, col, k) ↔
      (mm.row_index = row ∧ mm.column = col ∧ mm.type = k) := by
  simp [keyOf, Prod.ext_iff]

lemma keys_update (ms : List Measurement) (row : Nat) (col : Option String)
    (v : Option String) (m : String) (k : MKind) :
    (update_or_add_measure ms row col v m k).map keyOf =
      if (row, col, k) ∈ ms.map keyOf then ms.map keyOf
      else ms.map keyOf ++ [(row, col, k)] := by
  induction ms with
  | nil => simp [update_or_add_measure, keyOf]
  | cons hd rest ih =>
    by_cases hmatch : hd.row_index = row ∧ hd.column = col ∧ hd.type = k
    · have hkey : keyOf hd = (row, col, k) := (keyOf_eq_iff hd row col k).mpr hmatch
      have hres : update_or_add_measure (hd :: rest) row col v m k =
          { hd with measure := m } :: rest := by
        simp [update_or_add_measure, hmatch]
      have hkey2 : keyOf { hd with measure := m } = (row, col, k) := hkey
      simp [hres, hkey, hkey2]
    · have hkey : keyOf hd ≠ (row, col, k) := fun hc =>
        hmatch ((keyOf_eq_iff hd row col k).mp hc)
      have hres : update_or_add_measure (hd :: rest) row col v m k =
          hd :: update_or_add_measure rest row col v m k := by
        simp [update_or_add_measure, hmatch]
      by_cases hmem : (row, col, k) ∈ rest.map keyOf
      · simp [hres, ih, hmem, Ne.symm hkey]
      · simp [hres, ih, hmem, Ne.symm hkey]

lemma keys_nodup_update (ms : List Measurement) (row : Nat)
    (col : Option String) (v : Option String) (m : String) (k : MKind)
    (h : (ms.map keyOf).Nodup) :
    ((update_or_add_measure ms row col v m k).map keyOf).Nodup := by
  rw [keys_update]
  by_cases hmem : (row, col, k) ∈ ms.map keyOf
  · simpa [hmem] using h
  · simp only [hmem, if_false]
    rw [List.nodup_append]
    exact ⟨h, List.nodup_singleton _, by
      intro x hx hx1
      rw [List.mem_singleton.mp hx1] at hx
      exact hmem hx⟩

lemma keys_toFinset_update (ms : List Measurement) (row : Nat)
    (col : Option String) (v : Option String) (m : String) (k : MKind) :
    ((update_or_add_measure ms row col v m k).map keyOf).toFinset =
      insert (row, col, k) (ms.map keyOf).toFinset := by
  rw [keys_update]
  by_cases hmem : (row, col, k) ∈ ms.map keyOf
  · rw [if_pos hmem, Finset.insert_eq_self.mpr (List.mem_toFinset.mpr hmem)]
  · rw [if_neg hmem, List.toFinset_append]
    simp [Finset.insert_eq, Finset.union_comm]

lemma keys_nodup_recordAt (ms : List Measurement) (row : Nat)
    (slot : Option String) (v : Option String) (m : String)
    (h : (ms.map keyOf).Nodup) :
    ((recordAt ms row slot v m).map keyOf).Nodup := by
  cases slot with
  | none => exact keys_nodup_update ms row none none m .overall h
  | some c => exact keys_nodup_update ms row (some c) v m .column h

lemma keys_toFinset_recordAt (ms : List Measurement) (row : Nat)
    (slot : Option String) (v : Option String) (m : String) :
    ((recordAt ms row slot v m).map keyOf).toFinset =
      insert (keyFor row slot) (ms.map keyOf).toFinset := by
  cases slot with
  | none => exact keys_toFinset_update ms row none none m .overall
  | some c => exact keys_toFinset_update ms row (some c) v m .column

lemma applyFrom_keys (calls : List RecCall) :
    ∀ ms : List Measurement, (ms.map keyOf).Nodup →
      ((applyFrom ms calls).map keyOf).Nodup ∧
      ((applyFrom ms calls).map keyOf).toFinset =
        (ms.map keyOf).toFinset ∪ (calls.map callKey).toFinset := by
  induction calls with
  | nil =>
    intro ms h
    exact ⟨h, by simp [applyFrom]⟩
  | cons c cs ih =>
    intro ms h
    have hstep : applyFrom ms (c :: cs) =
        applyFrom (recordAt ms c.row c.slot c.value c.measure) cs := rfl
    have h1 := keys_nodup_recordAt ms c.row c.slot c.value c.measure h
    obtain ⟨ha, hb⟩ := ih (recordAt ms c.row c.slot c.value c.measure) h1
    rw [hstep]
    refine ⟨ha, ?_⟩
    rw [hb, keys_toFinset_recordAt]
    have hck : callKey c = keyFor c.row c.slot := rfl
    rw [List.map_cons, List.toFinset_cons, hck,
      Finset.insert_union, Finset.union_insert]

lemma measuresOfKey_nil_of_not_mem (ms : List Measurement)
    (key : Nat × Option String × MKind) (h : key ∉ ms.map keyOf) :
    measuresOfKey ms key = [] := by
  induction ms with
  | nil => rfl
  | cons hd rest ih =>
    have h1 : keyOf hd ≠ key := fun hc => h (by simp [hc])
    have h2 : key ∉ rest.map keyOf := fun hc => h (by simp [hc])
    have ih2 := ih h2
    simp only [measuresOfKey, List.filter_cons] at ih2 ⊢
    simpa [h1] using ih2

lemma measuresOfKey_update (ms : List Measurement) (row : Nat)
    (col : Option String) (v : Option String) (m : String) (k : MKind)
    (h : (ms.map keyOf).Nodup) :
    measuresOfKey (update_or_add_measure ms row col v m k)
      (row, col, k) = [m] := by
  induction ms with
  | nil => simp [measuresOfKey, update_or_add_measure, keyOf]
  | cons hd rest ih =>
    have h' : (keyOf hd :: rest.map keyOf).Nodup := by
      rw [List.map_cons] at h
      exact h
    have hnotin0 : keyOf hd ∉ rest.map keyOf := (List.nodup_cons.mp h').1
    have hnd_rest : (rest.map keyOf).Nodup := (List.nodup_cons.mp h').2
    by_cases hmatch : hd.row_index = row ∧ hd.column = col ∧ hd.type = k
    · have hkey : keyOf hd = (row, col, k) := (keyOf_eq_iff hd row col k).mpr hmatch
      have hres : update_or_add_measure (hd :: rest) row col v m k =
          { hd with measure := m } :: rest := by
        simp [update_or_add_measure, hmatch]
      have hkey2 : keyOf { hd with measure := m } = (row, col, k) := hkey
      have hnotin : (row, col, k) ∉ rest.map keyOf := hkey ▸ hnotin0
      rw [hres]
      have hnil := measuresOfKey_nil_of_not_mem rest (row, col, k) hnotin
      simp only [measuresOfKey, List.filter_cons] at hnil ⊢
      simpa [hkey2] using hnil
    · have hkey : keyOf hd ≠ (row, col, k) := fun hc =>
        hmatch ((keyOf_eq_iff hd row col k).mp hc)
      have hres : update_or_add_measure (hd :: rest) row col v m k =
          hd :: update_or_add_measure rest row col v m k := by
        simp [update_or_add_measure, hmatch]
      rw [hres]
      have ih2 := ih hnd_rest
      simp only [measuresOfKey, List.filter_cons] at ih2 ⊢
      simpa [hkey] using ih2

/-- C5: in every reachable session state the measurement log has at most
one entry per (row_index, column, type) triple (the key list is
duplicate-free); the log length equals the number of distinct triples
ever recorded with a non-unset measure; and recording twice for the
same row and slot leaves exactly one entry for that triple, carrying the
latest measure value. -/
theorem C5_measurement_uniqueness (calls : List RecCall) :
    ((applyTrace calls).map keyOf).Nodup ∧
    (applyTrace calls).length = ((calls.map callKey).dedup).length ∧
    (∀ (r : Nat) (sl : Option String) (v v' : Option String) (m m' : String),
      measuresOfKey (recordAt (recordAt (applyTrace calls) r sl v m) r sl v' m')
        (keyFor r sl) = [m']) := by
  obtain ⟨hnd, hfin⟩ := applyFrom_keys calls [] (by simp)
  refine ⟨hnd, ?_, ?_⟩
  · have h1 : (applyTrace calls).length = ((applyTrace calls).map keyOf).length :=
      (List.length_map _ _).symm
    have h2 : ((applyTrace calls).map keyOf).length =
        ((applyTrace calls).map keyOf).toFinset.card :=
      (List.toFinset_card_of_nodup hnd).symm
    have h3 : ((applyTrace calls).map keyOf).toFinset =
        (calls.map callKey).toFinset := by
      rw [show applyTrace calls = applyFrom [] calls from rfl, hfin]
      simp
    rw [h1, h2, h3, List.card_toFinset]
  · intro r sl v v' m m'
    have h1 : (((recordAt (applyTrace calls) r sl v m)).map keyOf).Nodup :=
      keys_nodup_recordAt _ r sl v m hnd
    cases sl with
    | none => exact measuresOfKey_update _ r none none m' .overall h1
    | some c => exact measuresOfKey_update _ r (some c) v' m' .column h1

/-- C8: a recording call whose chosen measure is the unset sentinel
writes nothing: the per-slot guard skips `_update_or_add_measure`
entirely, and a full submit in which every radio group reads `None`
leaves the measurement log exactly as it was — in particular any
previously saved entry is untouched. -/
theorem C8_unset_writes_nothing :
    (∀ (ms : List Measurement) (row : Nat) (slot : Option String)
       (v : Option String), guardedRecord ms row slot v none = ms) ∧
    (∀ (df : Nat → String → String) (columns : List String)
       (ms : List Measurement) (row : Nat),
      save_or_update_measures df columns (some none) (fun _ => some none)
        ms row = ms) := by
  constructor
  · intro ms row slot v
    rfl
  · intro df columns ms row
    have hstep : ∀ (acc : List Measurement) (cs : List String),
        List.foldl
          (fun acc c =>
            match (fun _ => (some none : Option (Option String))) c with
            | none => acc
            | some sel => guardedRecord acc row (some c) (some (df row c)) sel)
          acc cs = acc := by
      intro acc cs
      induction cs generalizing acc with
      | nil => rfl
      | cons c cs ih => exact ih acc
    exact hstep ms columns

/-- C9: when a recording call updates an existing entry (the first log
position `i` matching the triple), the whole log is the old log with
only position `i` replaced, and there only the `measure` field changes:
the stored `value` snapshot, identity fields, position, and log length
are kept, and the newly supplied snapshot `v` is discarded. -/
theorem C9_update_in_place (ms : List Measurement) (row : Nat)
    (col : Option String) (v : Option String) (m : String) (k : MKind)
    (i : Nat) (mm : Measurement)
    (h1 : firstKeyIdx ms row col k = some i) (h2 : ms.get? i = some mm) :
    update_or_add_measure ms row col v m k =
      ms.set i { mm with measure := m } ∧
    (update_or_add_measure ms row col v m k).length = ms.length := by
  have hmain : update_or_add_measure ms row col v m k =
      ms.set i { mm with measure := m } := by
    induction ms generalizing i with
    | nil => simp [firstKeyIdx] at h1
    | cons hd rest ih =>
      by_cases hmatch : hd.row_index = row ∧ hd.column = col ∧ hd.type = k
      · have hi0 : i = 0 := by
          simp [firstKeyIdx, hmatch] at h1
          omega
        subst hi0
        have hmm : mm = hd := by
          have := h2
          simp at this
          exact this.symm
        subst hmm
        simp [update_or_add_measure, hmatch]
      · have h1' : (firstKeyIdx rest row col k).map (· + 1) = some i := by
          simpa [firstKeyIdx, hmatch] using h1
        rcases Option.map_eq_some'.mp h1' with ⟨i', hi', hii⟩
        subst hii
        have h2' : rest.get? i' = some mm := by
          simpa using h2
        have hres : update_or_add_measure (hd :: rest) row col v m k =
            hd :: update_or_add_measure rest row col v m k := by
          simp [update_or_add_measure, hmatch]
        rw [hres, ih i' hi' h2']
        rfl
  exact ⟨hmain, by rw [hmain, List.length_set]⟩

/-- Witness for C9_update_in_place: the second log entry is updated; the
new snapshot `"B"` is discarded, the stored snapshot `"A"` kept, only
the measure changes. -/
theorem C9_update_in_place_witness :
    update_or_add_measure
      [⟨0, none, none, "Good", .overall⟩,
       ⟨1, some "c1", some "A", "Correct", .column⟩]
      1 (some "c1") (some "B") "Incorrect" .column =
      [⟨0, none, none, "Good", .overall⟩,
       ⟨1, some "c1", some "A", "Incorrect", .column⟩] := by
  have h := (C9_update_in_place
    [⟨0, none, none, "Good", .overall⟩,
     ⟨1, some "c1", some "A", "Correct", .column⟩]
    1 (some "c1") (some "B") "Incorrect" .column 1
    ⟨1, some "c1", some "A", "Correct", .column⟩ (by decide) rfl).1
  simpa using h

/-- C3 (as stated) is false on the code: `_save_or_update_measures` and
`_update_or_add_measure` perform no vocabulary validation.  Recording
the measure `"Weird"`, which is not in the vocabulary `["Good", "Bad"]`,
does not fail — it appends a fresh log entry, so the log is changed. -/
theorem C3_invalid_measure_counterexample :
    ("Weird" ∉ (["Good", "Bad"] : List String)) ∧
    recordAt [] 0 none none "Weird" =
      [⟨0, none, none, "Weird", .overall⟩] ∧
    recordAt [] 0 none none "Weird" ≠ ([] : List Measurement) := by
  refine ⟨by decide, rfl, by decide⟩

lemma mem_measuresOfKey_update (ms : List Measurement) (row : Nat)
    (col : Option String) (v : Option String) (m : String) (k : MKind) :
    m ∈ measuresOfKey (update_or_add_measure ms row col v m k)
      (row, col, k) := by
  induction ms with
  | nil => simp [measuresOfKey, update_or_add_measure, keyOf]
  | cons hd rest ih =>
    by_cases hmatch : hd.row_index = row ∧ hd.column = col ∧ hd.type = k
    · have hres : update_or_add_measure (hd :: rest) row col v m k =
          { hd with measure := m } :: rest := by
        simp [update_or_add_measure, hmatch]
      have hkey2 : keyOf { hd with measure := m } = (row, col, k) :=
        (keyOf_eq_iff _ row col k).mpr hmatch
      rw [hres]
      simp [measuresOfKey, List.filter_cons, hkey2]
    · have hkey : keyOf hd ≠ (row, col, k) := fun hc =>
        hmatch ((keyOf_eq_iff hd row col k).mp hc)
      have hres : update_or_add_measure (hd :: rest) row col v m k =
          hd :: update_or_add_measure rest row col v m k := by
        simp [update_or_add_measure, hmatch]
      rw [hres]
      simp only [measuresOfKey, List.filter_cons] at ih ⊢
      simpa [hkey] using ih

/-- C3 amended: the core recording path performs no vocabulary check and
never fails — any non-unset measure, in particular one outside the
applicable vocabulary list, is recorded for its triple like any other;
vocabulary enforcement exists only in the UI layer, whose radio options
are exactly the unset sentinel followed by the vocabulary entries, so
every selectable non-unset option is a vocabulary member. -/
theorem C3_no_vocabulary_check :
    (∀ (ms : List Measurement) (row : Nat) (slot : Option String)
       (v : Option String) (m : String) (vocab : List String),
      m ∉ vocab →
        m ∈ measuresOfKey (recordAt ms row slot v m) (keyFor row slot)) ∧
    (∀ (vocab : List String) (m : String),
      (some m) ∈ radioOptions vocab → m ∈ vocab) := by
  constructor
  · intro ms row slot v m vocab _hnv
    cases slot with
    | none => exact mem_measuresOfKey_update ms row none none m .overall
    | some c => exact mem_measuresOfKey_update ms row (some c) v m .column
  · intro vocab m hm
    simp [radioOptions] at hm
    exact hm

/-- Witness for C3_no_vocabulary_check: recording the out-of-vocabulary
measure `"Weird"` stores it, and the selectable option `"Good"` is a
vocabulary member. -/
theorem C3_no_vocabulary_check_witness :
    ("Weird" ∈ measuresOfKey (recordAt [] 0 none none "Weird")
      (keyFor 0 none)) ∧
    ("Good" ∈ ["Good", "Bad"]) :=
  ⟨C3_no_vocabulary_check.1 [] 0 none none "Weird" ["Good", "Bad"] (by decide),
   C3_no_vocabulary_check.2 ["Good", "Bad"] "Good" (by decide)⟩

/-- C6 (as stated) is false on the code: the exported rows carry the
dict keys written by `_update_or_add_measure` — `row_index` and `type`,
not `row_identifier` and `kind`. -/
theorem C6_export_columns_counterexample :
    (get_measurements [⟨0, some "col1", some "A", "Correct", .column⟩]).map
        (fun r => r.map Prod.fst) =
      [["row_index", "column", "value", "measure", "type"]] ∧
    (["row_index", "column", "value", "measure", "type"] : List String) ≠
      ["row_identifier", "column", "value", "measure", "kind"] := by
  refine ⟨rfl, by decide⟩

/-- C6 amended: `get_measurements` returns the full measurement log as
an ordered sequence of rows — row `i` of the export is exactly the
key/value listing of log entry `i` — and every row's column names are
exactly `row_index, column, value, measure, type`. -/
theorem C6_export_schema (ms : List Measurement) (i : Nat) :
    (get_measurements ms).length = ms.length ∧
    (get_measurements ms).get? i = (ms.get? i).map measurementEntries ∧
    (get_measurements ms).map (fun r => r.map Prod.fst) =
      List.replicate ms.length measurementColumns := by
  refine ⟨by simp [get_measurements], ?_, ?_⟩
  · simp [get_measurements, List.get?_map]
  · rw [get_measurements, List.map_map]
    have hrow : ∀ mm : Measurement,
        ((fun r => r.map Prod.fst) ∘ measurementEntries) mm =
          measurementColumns := fun mm => rfl
    calc ms.map ((fun r => r.map Prod.fst) ∘ measurementEntries)
        = ms.map (fun _ => measurementColumns) := List.map_congr_left (fun mm _ => hrow mm)
      _ = List.replicate ms.length measurementColumns := by
          induction ms with
          | nil => rfl
          | cons hd rest ih => simp [List.replicate, ih]

/-- C7 (spec-modelled for the external pandas draw): with a supplied
seed, `sample_indices` is a function of `(ids, n, seed)` — two calls
with the same arguments return the identical list; when `n` does not
exceed the number of identifiers it succeeds with a list of length
exactly `n` whose entries are identifiers of the source, pairwise
distinct whenever the source identifiers are distinct; when `n` exceeds
the number of identifiers it fails with `InvalidSampleSize`. -/
theorem C7_sample_contract (ids : List Nat) (n : Nat) (seed : Nat) :
    (sample_indices ids n seed = sample_indices ids n seed) ∧
    (n ≤ ids.length →
      sample_indices ids n seed = .ok ((seededPerm seed ids).take n) ∧
      ((seededPerm seed ids).take n).length = n ∧
      (∀ x ∈ (seededPerm seed ids).take n, x ∈ ids) ∧
      (ids.Nodup → ((seededPerm seed ids).take n).Nodup)) ∧
    (ids.length < n → sample_indices ids n seed = .error .invalidSampleSize) := by
  have hperm : List.Perm (seededPerm seed ids) ids := List.rotate_perm ids _
  refine ⟨rfl, ?_, ?_⟩
  · intro hn
    have hlen : (seededPerm seed ids).length = ids.length := hperm.length_eq
    refine ⟨?_, ?_, ?_, ?_⟩
    · simp [sample_indices, Nat.not_lt.mpr hn]
    · rw [List.length_take, hlen]
      exact Nat.min_eq_left hn
    · intro x hx
      exact hperm.mem_iff.mp (List.mem_of_mem_take hx)
    · intro hnd
      exact ((List.take_sublist n _).nodup (hperm.nodup_iff.mpr hnd))
  · intro hn
    simp [sample_indices, hn]

/-- Witness for C7_sample_contract: sampling 10 of 100 identifiers with
seed 42 succeeds, has length 10, and is duplicate-free. -/
theorem C7_sample_contract_witness :
    sample_indices (List.range 100) 10 42 =
      .ok ((seededPerm 42 (List.range 100)).take 10) ∧
    ((seededPerm 42 (List.range 100)).take 10).length = 10 ∧
    ((seededPerm 42 (List.range 100)).take 10).Nodup := by
  have h := (C7_sample_contract (List.range 100) 10 42).2.1 (by simp)
  exact ⟨h.1, h.2.1, h.2.2.2 (List.nodup_range 100)⟩
